import Mathlib

/-!
Verification of the Topic Monitor pipeline of the mattermost-mcp repository.

The definitions below are a shallow embedding of the TypeScript source:

* `MonitorState`, `loadState`, `saveState`, `isPostProcessed`,
  `markPostProcessed`, `getProcessedPostIds` embed `StateManager`
  (monitor persistence module).  The JS object `processedPosts :
  Record<string, string[]>` is embedded as an insertion-ordered
  association list `List (String × List String)`, matching JS string-key
  insertion-order semantics.
* `analyzeWithLLM`, `topicDictionary` embed the deterministic
  dictionary-extended classifier `MessageAnalyzer.analyzeWithLLM`;
  `fallbackAnalysis` embeds `MessageAnalyzer.fallbackAnalysis` of
  `src/monitor/analyzer.ts`.
* `schedTick`, `schedRunNow` embed the tick closure inside
  `MonitoringScheduler.start` and `MonitoringScheduler.runNow`
  (`src/monitor/scheduler.ts`).  The callback is modelled as a function
  `σ → σ × Option ε` giving the world it produced (including partial
  effects) together with the exception it threw, if any; an `Except ε`
  result records whether an exception escapes the boundary.
* `monitorIsFirstRun`, `analyzeFetchLimit` embed the first-run detection
  in `TopicMonitor.runMonitoring` and the fetch-limit selection in
  `MessageAnalyzer.analyzeChannel`.
* `manualExtractTopics`, `llmRelevant` embed the tolerant extraction in
  `MessageAnalyzer.analyzePostsWithLLM`, parametrised by the outcome of
  the two regex scans over the backend response.
* `composeNotification` embeds the message composition in
  `TopicMonitor.sendNotification`.
* `handleRunMonitoring` embeds the tool handler in
  `src/tools/monitoring.ts`.
-/

/-! ## JS string primitives -/

/-- JS `String.prototype.toLowerCase` (ASCII range, as used by the source). -/
def jsToLower (s : String) : String :=
  String.mk (s.data.map Char.toLower)

/-- Whether `needle` occurs contiguously inside the second list. -/
def hasSubstring : List Char → List Char → Bool
  | needle, [] => needle.isEmpty
  | needle, c :: rest => needle.isPrefixOf (c :: rest) || hasSubstring needle rest

/-- JS `String.prototype.includes`: substring containment. -/
def jsIncludes (s sub : String) : Bool :=
  hasSubstring sub.data s.data

/-! ## StateManager (monitor persistence module) -/

/-- Embeds the `MonitorState` interface: `lastRun` ISO string and
`processedPosts : Record<string, string[]>` as an insertion-ordered
association list from channel id to post-id array. -/
structure MonitorState where
  lastRun : String
  processedPosts : List (String × List String)
deriving DecidableEq, Repr

/-- Embeds `DEFAULT_STATE`: `lastRun` the current time, empty processed map. -/
def defaultState (now : String) : MonitorState :=
  ⟨now, []⟩

/-- JS object property read `m[ch]`: first entry with the key. -/
def lookupChannel : List (String × List String) → String → Option (List String)
  | [], _ => none
  | e :: rest, ch => if e.1 = ch then some e.2 else lookupChannel rest ch

/-- Embeds `StateManager.loadState`: return the parsed backing record when present
and parsable, else the default state.  The backing record and `JSON.parse`
are external collaborators, passed in as `backing` and `parse`. -/
def loadState (now : String) (backing : Option String)
    (parse : String → Option MonitorState) : MonitorState :=
  match backing with
  | none => defaultState now
  | some data =>
    match parse data with
    | some st => st
    | none => defaultState now

/-- Embeds `StateManager.saveState`: sets `lastRun` to the current time and rewrites
the whole record; a write failure leaves the in-memory state as built here. -/
def saveState (s : MonitorState) (now : String) : MonitorState :=
  { s with lastRun := now }

/-- Embeds the value `StateManager.getLastRun` returns: `new Date(this.state.lastRun)`,
a JS `Date` object wrapping the stored string. -/
structure JsDate where
  raw : String

/-- Embeds `StateManager.getLastRun`. -/
def getLastRun (s : MonitorState) : JsDate :=
  ⟨s.lastRun⟩

/-- JS `!d` for a `Date` object `d`: an object is always truthy, so the
negation is always `false` (even for an Invalid Date). -/
def jsDateNot (_ : JsDate) : Bool :=
  false

/-- Embeds `StateManager.getProcessedPostIds`: `this.state.processedPosts[channelId] || []`. -/
def getProcessedPostIds (s : MonitorState) (channelId : String) : List String :=
  (lookupChannel s.processedPosts channelId).getD []

/-- Embeds `StateManager.isPostProcessed`: membership test via `Array.includes`. -/
def isPostProcessed (s : MonitorState) (channelId postId : String) : Bool :=
  (getProcessedPostIds s channelId).contains postId

/-- First half of `markPostProcessed`: `if (!this.state.processedPosts[channelId])
this.state.processedPosts[channelId] = []` (a fresh key is appended last,
matching JS string-key insertion order). -/
def ensureChannel (m : List (String × List String)) (ch : String) :
    List (String × List String) :=
  match lookupChannel m ch with
  | none => m ++ [(ch, [])]
  | some _ => m

/-- Embeds `this.state.processedPosts[channelId].push(postId)`: append to the entry. -/
def pushPost : List (String × List String) → String → String →
    List (String × List String)
  | [], _, _ => []
  | e :: rest, ch, id =>
    if e.1 = ch then (e.1, e.2 ++ [id]) :: rest else e :: pushPost rest ch id

/-- Embeds `StateManager.markPostProcessed`: ensure the channel entry exists, then
push the post id unless `isPostProcessed` already holds. -/
def markPostProcessed (s : MonitorState) (ch id : String) : MonitorState :=
  if ((lookupChannel (ensureChannel s.processedPosts ch) ch).getD []).contains id then
    { s with processedPosts := ensureChannel s.processedPosts ch }
  else
    { s with processedPosts := pushPost (ensureChannel s.processedPosts ch) ch id }

/-! ## Messages and the per-channel candidate set -/

/-- Embeds the fields of `Post` used by the monitor pipeline. -/
structure Post where
  id : String
  user_id : String
  message : String
  create_at : Int
deriving DecidableEq, Repr

/-- The candidate filter of `MessageAnalyzer.analyzeChannel`:
`posts.filter(post => !processedPostIds.includes(post.id))`. -/
def unprocessedPosts (s : MonitorState) (channelId : String) (posts : List Post) :
    List Post :=
  posts.filter (fun post => !((getProcessedPostIds s channelId).contains post.id))

/-! ## First-run detection and fetch limit -/

/-- JS truthiness of the optional numeric `firstRunLimit` argument. -/
def jsNumTruthy : Option Nat → Bool
  | none => false
  | some n => n != 0

/-- Embeds the limit selection of `MessageAnalyzer.analyzeChannel`:
`const limit = firstRun && firstRunLimit ? firstRunLimit : this.messageLimit`. -/
def analyzeFetchLimit (firstRun : Bool) (firstRunLimit : Option Nat)
    (messageLimit : Nat) : Nat :=
  if firstRun && jsNumTruthy firstRunLimit then firstRunLimit.getD messageLimit
  else messageLimit

/-- Embeds the first-run detection of `TopicMonitor.runMonitoring`:
`const isFirstRun = !this.stateManager.getLastRun()`. -/
def monitorIsFirstRun (s : MonitorState) : Bool :=
  jsDateNot (getLastRun s)

/-- The fetch limit actually used by a cycle for a channel: the limit
`analyzeChannel` computes from the first-run flag `runMonitoring` passes. -/
def runMonitoringFetchLimit (s : MonitorState) (firstRunLimit : Option Nat)
    (messageLimit : Nat) : Nat :=
  analyzeFetchLimit (monitorIsFirstRun s) firstRunLimit messageLimit

/-! ## Deterministic classifiers -/

/-- The static synonym dictionary of `MessageAnalyzer.analyzeWithLLM`
(keyed by lower-cased topic label). -/
def topicDictionary (topic : String) : List String :=
  if topic = "table tennis" then
    ["ping pong", "paddle", "racket", "ball", "net", "table",
     "butterfly", "stiga", "donic", "yasaka", "tibhar", "joola",
     "rubbers", "blade", "backhand", "forehand", "spin", "serve",
     "timo boll", "ma long", "zhang jike", "wang liqin", "liu shiwen",
     "dignics", "tenergy", "tournament", "championship", "ittf"]
  else []

/-- One topic iteration of `MessageAnalyzer.analyzeWithLLM`: a direct
substring match `continue`s past the other checks; otherwise the related
terms, the equipment co-occurrence heuristic and the player heuristic each
may push the topic (duplicates are erased at the end). -/
def analyzeTopicMatches (lowerMessage topic : String) : List String :=
  if jsIncludes lowerMessage (jsToLower topic) then [topic]
  else
    let rel :=
      if (topicDictionary (jsToLower topic)).any
          (fun term => jsIncludes lowerMessage (jsToLower term)) then [topic]
      else []
    let equip :=
      if jsToLower topic = "table tennis" &&
          (jsIncludes lowerMessage ("rubber") || jsIncludes lowerMessage ("blade")) &&
          (jsIncludes lowerMessage ("butterfly") || jsIncludes lowerMessage ("stiga") ||
           jsIncludes lowerMessage ("donic") || jsIncludes lowerMessage ("yasaka") ||
           jsIncludes lowerMessage ("tibhar") || jsIncludes lowerMessage ("joola")) then [topic]
      else []
    let player :=
      if jsToLower topic = "table tennis" &&
          (jsIncludes lowerMessage ("player") || jsIncludes lowerMessage ("championship") ||
           jsIncludes lowerMessage ("tournament") || jsIncludes lowerMessage ("match") ||
           jsIncludes lowerMessage ("game")) then [topic]
      else []
    rel ++ equip ++ player

/-- Embeds `MessageAnalyzer.analyzeWithLLM` (the deterministic dictionary-extended
classifier): collect matches per topic, then `[...new Set(matchedTopics)]`. -/
def analyzeWithLLM (message : String) (topics : List String) : List String :=
  ((topics.foldl (fun acc topic => acc ++ analyzeTopicMatches (jsToLower message) topic) []).eraseDups)

/-- Set insertion in first-add order (`Set.prototype.add`). -/
def insertUniq (l : List String) (a : String) : List String :=
  if l.contains a then l else l ++ [a]

/-- Embeds `MessageAnalyzer.fallbackAnalysis` of `src/monitor/analyzer.ts`: plain
case-insensitive substring containment of each topic label; the inner loop
stops at the first matching topic for a post. -/
def fallbackAnalysis (posts : List Post) (topics : List String) :
    List Post × List String :=
  posts.foldl
    (fun acc post =>
      match topics.find? (fun topic =>
          jsIncludes (jsToLower post.message) (jsToLower topic)) with
      | some topic => (acc.1 ++ [post], insertUniq acc.2 topic)
      | none => acc)
    ([], [])

/-! ## State mutations performed after classification in a cycle -/

/-- The operations a process applies to its in-memory state after loading it:
marking a processed post, and saving (which only refreshes `lastRun`). -/
inductive MonitorOp where
  | mark (ch id : String)
  | save (now : String)
deriving DecidableEq, Repr

def applyOp (s : MonitorState) : MonitorOp → MonitorState
  | MonitorOp.mark ch id => markPostProcessed s ch id
  | MonitorOp.save now => saveState s now

def applyOps (s : MonitorState) (ops : List MonitorOp) : MonitorState :=
  ops.foldl applyOp s

/-! ## MonitoringScheduler -/

/-- Observable scheduler state: `task !== null` (`hasTask`), the
in-flight flag `isRunning`, and the world the callback acts on (state file,
classification markings, outbound notifications — everything a cycle can
change). -/
structure SchedulerState (σ : Type) where
  hasTask : Bool
  isRunning : Bool
  world : σ
deriving DecidableEq, Repr

/-- The tick closure registered by `MonitoringScheduler.start`: skip when
`isRunning`; otherwise set the flag, run the callback under
`try`/`catch`/`finally` (the catch only logs), and clear the flag.  The
callback `cb` yields the world it produced (partial effects included) and
the exception it threw, if any.  The `Except` layer records whether an
exception escapes the handler; the `Nat` counts callback invocations. -/
def schedTick {σ ε : Type} (cb : σ → σ × Option ε) (s : SchedulerState σ) :
    Except ε (SchedulerState σ) × Nat :=
  if s.isRunning then (Except.ok s, 0)
  else (Except.ok { s with world := (cb s.world).1, isRunning := false }, 1)

/-- Embeds `MonitoringScheduler.runNow`: identical guard, `try`/`catch`/`finally`
and flag handling as the tick closure, invoked out-of-band. -/
def schedRunNow {σ ε : Type} (cb : σ → σ × Option ε) (s : SchedulerState σ) :
    Except ε (SchedulerState σ) × Nat :=
  if s.isRunning then (Except.ok s, 0)
  else (Except.ok { s with world := (cb s.world).1, isRunning := false }, 1)

/-- Did the computation complete without an escaping exception? -/
def exceptOk {ε α : Type} : Except ε α → Bool
  | Except.ok _ => true
  | Except.error _ => false

/-- The in-flight flag at exit (an escaped exception would leave it set). -/
def exitFlag {σ ε : Type} : Except ε (SchedulerState σ) → Bool
  | Except.ok t => t.isRunning
  | Except.error _ => true

/-! ## Run-monitoring tool handler -/

/-- The MCP tool response shape used by `handleRunMonitoring` (content text
plus the `isError` marker). -/
structure ToolResult where
  text : String
  isError : Bool
deriving DecidableEq, Repr

/-- Embeds `handleRunMonitoring` of `src/tools/monitoring.ts`: error result when no
monitor instance is set; otherwise `await runNow()` inside `try`/`catch`,
returning the fixed success message on normal return and an error result
carrying the exception message otherwise. -/
def handleRunMonitoring {σ ε : Type} (errMsg : ε → String)
    (cb : σ → σ × Option ε) (inst : Option (SchedulerState σ)) : ToolResult :=
  match inst with
  | none => ⟨"Monitoring is not enabled or initialized", true⟩
  | some s =>
    match (schedRunNow cb s).1 with
    | Except.ok _ => ⟨"Monitoring process completed successfully", false⟩
    | Except.error e => ⟨errMsg e, true⟩

/-! ## Notification composition -/

/-- One line of the notification body:
`- ${timestamp} (${postAuthor}): "${post.message}"`.  The locale timestamp
rendering and the author-profile resolution (display name, or the raw
`user_id` when the lookup fails) are external collaborators, passed in. -/
def renderPostLine (renderTs : Int → String) (authorOf : Post → String)
    (p : Post) : String :=
  "- " ++ renderTs p.create_at ++ " (" ++ authorOf p ++ "): \"" ++ p.message ++ "\"\n"

/-- Header plus the rendered lines for the shown posts, as composed by
`TopicMonitor.sendNotification` before the overflow suffix. -/
def notificationListing (username channelName : String) (topics : List String)
    (renderTs : Int → String) (authorOf : Post → String)
    (shown : List Post) (total : Nat) : String :=
  "@" ++ username ++ " **Topic Monitor Alert**\n\n" ++
  "Found " ++ toString total ++ " relevant posts in channel: **" ++ channelName ++ "**\n" ++
  "Topics: " ++ String.intercalate (", ") topics ++ "\n\n" ++
  "**Recent Messages:**\n" ++
  String.join (shown.map (renderPostLine renderTs authorOf))

/-- Embeds the `TopicMonitor.sendNotification` message composition: header, the posts of
`posts.slice(0, 5)` in fetched order, and, when `posts.length > 5`, the
suffix `` `... and ${posts.length - 5} more\n` ``. -/
def composeNotification (username channelName : String) (topics : List String)
    (renderTs : Int → String) (authorOf : Post → String)
    (posts : List Post) : String :=
  notificationListing username channelName topics renderTs authorOf
    (posts.take 5) posts.length ++
  (if 5 < posts.length then "... and " ++ toString (posts.length - 5) ++ " more\n"
   else "")

/-! ## Tolerant extraction in analyzePostsWithLLM -/

/-- JS `result.topics[topic] = ids` on the insertion-ordered object. -/
def setEntry : List (String × List String) → String → List String →
    List (String × List String)
  | [], k, v => [(k, v)]
  | e :: rest, k, v => if e.1 = k then (e.1, v) :: rest else e :: setEntry rest k v

/-- Stage 2 of the tolerant parse: for each topic, scan the response with
`` `"${topic}"\s*:\s*\[(.*?)\]` `` and keep the message ids found inside the
brackets.  The regex scan over the backend response is the external input
`topicScan` (empty list when the regex does not match or captures no id). -/
def stage2Topics (topics : List String) (topicScan : String → List String) :
    List (String × List String) :=
  topics.foldl
    (fun acc topic =>
      let ids := topicScan topic
      if 0 < ids.length then setEntry acc topic ids else acc)
    []

/-- Embeds `if (!result.topics[topic]) result.topics[topic] = [];
result.topics[topic].push(post.id)`. -/
def appendEntry : List (String × List String) → String → String →
    List (String × List String)
  | [], k, v => [(k, [v])]
  | e :: rest, k, v =>
    if e.1 = k then (e.1, e.2 ++ [v]) :: rest else e :: appendEntry rest k v

/-- Stage 3 (the recall-favoring tie-break): when stage 2 associated nothing,
every candidate post whose id was found anywhere in the response is recorded
under every configured topic. -/
def allTopicsFallback (posts : List Post) (topics allPostIds : List String) :
    List (String × List String) :=
  posts.foldl
    (fun acc post =>
      if allPostIds.contains post.id then
        topics.foldl (fun acc2 topic => appendEntry acc2 topic post.id) acc
      else acc)
    []

/-- The topic→ids mapping `analyzePostsWithLLM` ends up with:
stage 2 when it associated anything, else the all-topics tie-break applied
to the ids the global scan `/"([a-z0-9]{26})"/g` found (`allPostIds`). -/
def manualExtractTopics (posts : List Post) (topics allPostIds : List String)
    (topicScan : String → List String) : List (String × List String) :=
  let stage2 := stage2Topics topics topicScan
  if stage2.length = 0 ∧ 0 < allPostIds.length then
    allTopicsFallback posts topics allPostIds
  else stage2

/-- Final aggregation of `analyzePostsWithLLM`: topics with a nonempty id
list, the union of those id lists, and the candidate posts whose id is in
that union. -/
def llmRelevant (posts : List Post) (topicsMap : List (String × List String)) :
    List Post × List String :=
  let kept := topicsMap.filter (fun e => 0 < e.2.length)
  let relevantTopics := kept.map (fun e => e.1)
  let relevantPostIds := kept.foldl (fun acc e => acc ++ e.2) []
  (posts.filter (fun p => relevantPostIds.contains p.id), relevantTopics)

/-- End-to-end manual extraction of `analyzePostsWithLLM` after the two
regex scans of the backend response. -/
def analyzeManualExtraction (posts : List Post) (topics allPostIds : List String)
    (topicScan : String → List String) : List Post × List String :=
  llmRelevant posts (manualExtractTopics posts topics allPostIds topicScan)

/-- Keys of the insertion-ordered topic map. -/
def keysOf (m : List (String × List String)) : List String :=
  m.map (fun e => e.1)

/-- Whether some entry has `x` in its id list. -/
def valsContain : List (String × List String) → String → Prop
  | [], _ => False
  | e :: rest, x => x ∈ e.2 ∨ valsContain rest x

/-! ## Concrete inputs used by the testable properties -/

/-- Spec fallback-classification example message that should match. -/
def butterflyMessage : String :=
  "just bought a new butterfly blade"

/-- Spec fallback-classification example message that should not match
(the lunch message, apostrophe written via its code point). -/
def lunchMessage : String :=
  "let" ++ String.singleton (Char.ofNat 39) ++ "s grab lunch"

/-- A sample post for concrete evaluations. -/
def mkPost (i : Nat) : Post :=
  ⟨"post" ++ toString i, "user" ++ toString i, "msg" ++ toString i, Int.ofNat i⟩

/-- Seven sample matching posts, as in the truncation example of the spec. -/
def c8posts : List Post :=
  [mkPost 1, mkPost 2, mkPost 3, mkPost 4, mkPost 5, mkPost 6, mkPost 7]

/-- A candidate post with a well-formed 26-character id, for the tie-break
counterexample. -/
def cPost : Post :=
  Post.mk ("aaaaaaaaaaaaaaaaaaaaaaaaaa") ("u1") ("hello") 0

/-- A well-formed 26-character message id that belongs to no candidate. -/
def strayId : String :=
  "bbbbbbbbbbbbbbbbbbbbbbbbbb"

/-! ### Association-list lemmas for the processed-posts map -/

theorem contains_eq_decide_mem (l : List String) (a : String) :
    l.contains a = decide (a ∈ l) :=
  List.elem_eq_mem a l

theorem isPostProcessed_true_iff (s : MonitorState) (ch id : String) :
    isPostProcessed s ch id = true ↔ id ∈ getProcessedPostIds s ch := by
  rw [isPostProcessed, contains_eq_decide_mem]
  exact decide_eq_true_iff

theorem lookupChannel_append_single (m : List (String × List String))
    (ch ch' : String) (v : List String) :
    lookupChannel (m ++ [(ch, v)]) ch' =
      (lookupChannel m ch').orElse (fun _ => if ch = ch' then some v else none) := by
  induction m with
  | nil => simp [lookupChannel, Option.orElse]
  | cons e rest ih =>
    by_cases h : e.1 = ch'
    · simp [lookupChannel, h, Option.orElse]
    · simp [lookupChannel, h, ih]

theorem lookupChannel_ensure_self (m : List (String × List String)) (ch : String) :
    lookupChannel (ensureChannel m ch) ch = some ((lookupChannel m ch).getD []) := by
  unfold ensureChannel
  cases h : lookupChannel m ch with
  | none => simp [lookupChannel_append_single, h, Option.orElse]
  | some v => simp [h]

theorem lookupChannel_ensure_ne (m : List (String × List String)) (ch ch' : String)
    (hne : ch ≠ ch') :
    lookupChannel (ensureChannel m ch) ch' = lookupChannel m ch' := by
  unfold ensureChannel
  cases h : lookupChannel m ch with
  | none =>
    rw [lookupChannel_append_single]
    cases h' : lookupChannel m ch' <;> simp [Option.orElse, hne]
  | some v => rfl

theorem ensureChannel_of_lookup_some (m : List (String × List String))
    (ch : String) (v : List String) (h : lookupChannel m ch = some v) :
    ensureChannel m ch = m := by
  unfold ensureChannel
  rw [h]

theorem lookupChannel_pushPost_self (m : List (String × List String))
    (ch id : String) :
    lookupChannel (pushPost m ch id) ch =
      (lookupChannel m ch).map (fun l => l ++ [id]) := by
  induction m with
  | nil => simp [pushPost, lookupChannel]
  | cons e rest ih =>
    by_cases h : e.1 = ch
    · simp [pushPost, lookupChannel, h]
    · simp [pushPost, lookupChannel, h, ih]

theorem lookupChannel_pushPost_ne (m : List (String × List String))
    (ch ch' id : String) (hne : ch' ≠ ch) :
    lookupChannel (pushPost m ch id) ch' = lookupChannel m ch' := by
  induction m with
  | nil => simp [pushPost, lookupChannel]
  | cons e rest ih =>
    by_cases h : e.1 = ch
    · simp [pushPost, lookupChannel, h, hne, Ne.symm hne]
    · by_cases h' : e.1 = ch'
      · simp [pushPost, lookupChannel, h, h', hne]
      · simp [pushPost, lookupChannel, h, h', ih]

/-- How one `markPostProcessed` call changes the id list of the marked channel. -/
theorem getProcessedPostIds_mark_self (s : MonitorState) (ch id : String) :
    getProcessedPostIds (markPostProcessed s ch id) ch =
      if id ∈ getProcessedPostIds s ch then getProcessedPostIds s ch
      else getProcessedPostIds s ch ++ [id] := by
  have hens := lookupChannel_ensure_self s.processedPosts ch
  by_cases h : id ∈ getProcessedPostIds s ch
  · have hc : (((lookupChannel (ensureChannel s.processedPosts ch) ch).getD []).contains id) = true := by
      rw [hens]
      simp only [Option.getD_some, contains_eq_decide_mem]
      exact decide_eq_true h
    unfold markPostProcessed
    rw [if_pos hc, if_pos h]
    simp [getProcessedPostIds, hens]
  · have hc : ¬ ((((lookupChannel (ensureChannel s.processedPosts ch) ch).getD []).contains id) = true) := by
      rw [hens]
      simp only [Option.getD_some, contains_eq_decide_mem]
      simpa [getProcessedPostIds] using h
    unfold markPostProcessed
    rw [if_neg hc, if_neg h]
    simp only [getProcessedPostIds]
    rw [lookupChannel_pushPost_self, hens]
    simp

/-- A `markPostProcessed` call leaves the id lists of other channels untouched. -/
theorem getProcessedPostIds_mark_ne (s : MonitorState) (ch id ch' : String)
    (hne : ch' ≠ ch) :
    getProcessedPostIds (markPostProcessed s ch id) ch' = getProcessedPostIds s ch' := by
  unfold markPostProcessed
  by_cases h : ((lookupChannel (ensureChannel s.processedPosts ch) ch).getD []).contains id = true
  · rw [if_pos h]
    simp only [getProcessedPostIds]
    rw [lookupChannel_ensure_ne _ _ _ (Ne.symm hne)]
  · rw [if_neg h]
    simp only [getProcessedPostIds]
    rw [lookupChannel_pushPost_ne _ _ _ _ hne, lookupChannel_ensure_ne _ _ _ (Ne.symm hne)]

/-- After `markPostProcessed s ch id`, the pair is recorded. -/
theorem mem_mark_self (s : MonitorState) (ch id : String) :
    id ∈ getProcessedPostIds (markPostProcessed s ch id) ch := by
  rw [getProcessedPostIds_mark_self]
  by_cases h : id ∈ getProcessedPostIds s ch
  · rwa [if_pos h]
  · rw [if_neg h]; simp

/-- A `markPostProcessed` call never removes a recorded pair. -/
theorem mem_mark_mono (s : MonitorState) (ch id ch' id' : String)
    (h : id' ∈ getProcessedPostIds s ch' ) :
    id' ∈ getProcessedPostIds (markPostProcessed s ch id) ch' := by
  by_cases hch : ch' = ch
  · subst hch
    rw [getProcessedPostIds_mark_self]
    by_cases hmem : id ∈ getProcessedPostIds s ch'
    · rwa [if_pos hmem]
    · rw [if_neg hmem]; exact List.mem_append_left _ h
  · rwa [getProcessedPostIds_mark_ne _ _ _ _ hch]

/-- A `saveState` call does not change the processed map. -/
theorem getProcessedPostIds_save (s : MonitorState) (now ch : String) :
    getProcessedPostIds (saveState s now) ch = getProcessedPostIds s ch := rfl

/-- Marking an already-recorded pair is the identity on the full state. -/
theorem markPostProcessed_mark_of_mem (s : MonitorState) (ch id : String)
    (h : id ∈ getProcessedPostIds s ch) :
    markPostProcessed s ch id = s := by
  have hsome : lookupChannel s.processedPosts ch = some (getProcessedPostIds s ch) := by
    unfold getProcessedPostIds at h ⊢
    cases hl : lookupChannel s.processedPosts ch with
    | none => rw [hl] at h; simp [Option.getD] at h
    | some v => simp [hl]
  have hens := ensureChannel_of_lookup_some _ _ _ hsome
  have hc : (((lookupChannel (ensureChannel s.processedPosts ch) ch).getD []).contains id) = true := by
    rw [hens, hsome]
    simp only [Option.getD_some, contains_eq_decide_mem]
    exact decide_eq_true h
  unfold markPostProcessed
  rw [if_pos hc, hens]

/-- Any later mark/save sequence preserves a recorded pair. -/
theorem mem_applyOps_mono (ops : List MonitorOp) (s : MonitorState)
    (ch id : String) (h : id ∈ getProcessedPostIds s ch) :
    id ∈ getProcessedPostIds (applyOps s ops) ch := by
  induction ops generalizing s with
  | nil => exact h
  | cons op rest ih =>
    refine ih (applyOp s op) ?_
    cases op with
    | mark ch' id' => exact mem_mark_mono s ch' id' ch id h
    | save now => rwa [applyOp, getProcessedPostIds_save]

/-- A recorded id never survives the candidate filter. -/
theorem unprocessed_excludes_processed (s : MonitorState) (ch id : String)
    (posts : List Post) (h : id ∈ getProcessedPostIds s ch) :
    ((unprocessedPosts s ch posts).map Post.id).contains id = false := by
  rw [contains_eq_decide_mem, decide_eq_false_iff_not]
  intro hmem
  rcases List.mem_map.mp hmem with ⟨p, hp, hpid⟩
  rcases List.mem_filter.mp hp with ⟨_, hkeep⟩
  rw [hpid] at hkeep
  rw [contains_eq_decide_mem, decide_eq_true h] at hkeep
  simp at hkeep

/-! ## Claim theorems -/

/-- C1: the first-run fetch-limit policy is dead code.  `runMonitoring`
computes `isFirstRun = !this.stateManager.getLastRun()`, but `getLastRun`
returns a `Date` object, which is always truthy, so the flag is `false` for
every state — including a genuine first run — and the per-channel fetch
always requests the steady-state `messageLimit` (here: 50 instead of the
configured `firstRunLimit` 10).  `analyzeFetchLimit true (some 10) 50 = 10`
shows the analyzer would honour the limit if the flag were computed as the
spec describes. -/
theorem firstRun_limit_never_applied :
    (∀ (s : MonitorState) (frl : Option Nat) (ml : Nat),
      monitorIsFirstRun s = false ∧ runMonitoringFetchLimit s frl ml = ml) ∧
    runMonitoringFetchLimit (defaultState ("2024-01-01T00:00:00.000Z")) (some 10) 50 = 50 ∧
    analyzeFetchLimit true (some 10) 50 = 10 := by
  refine ⟨fun s frl ml => ⟨rfl, rfl⟩, rfl, rfl⟩

/-- C2: under the deterministic dictionary-extended fallback classifier with
topics `["table tennis"]`, the message `just bought a new butterfly blade`
matches `table tennis` (via the synonym dictionary) and the lunch message
matches no configured topic. -/
theorem fallback_classification_examples :
    analyzeWithLLM butterflyMessage ["table tennis"] = ["table tennis"] ∧
    analyzeWithLLM lunchMessage ["table tennis"] = [] := by
  decide

/-- C3: the processed set only grows under any sequence of mark/save
operations, a marked `(channel, messageId)` pair stays marked, and a marked
id never reappears in the candidate set (`unprocessedPosts`) of any later
classification of that channel. -/
theorem processed_monotone_and_excluded :
    ∀ (s : MonitorState) (ch id ch' id' : String) (ops : List MonitorOp)
      (posts : List Post),
    (isPostProcessed s ch' id' = true →
      isPostProcessed (applyOps s ops) ch' id' = true) ∧
    isPostProcessed (applyOps (markPostProcessed s ch id) ops) ch id = true ∧
    ((unprocessedPosts (applyOps (markPostProcessed s ch id) ops) ch posts).map
        Post.id).contains id = false := by
  intro s ch id ch' id' ops posts
  refine ⟨?_, ?_, ?_⟩
  · intro h
    exact (isPostProcessed_true_iff _ _ _).mpr
      (mem_applyOps_mono ops s ch' id' ((isPostProcessed_true_iff _ _ _).mp h))
  · exact (isPostProcessed_true_iff _ _ _).mpr
      (mem_applyOps_mono ops _ ch id (mem_mark_self s ch id))
  · exact unprocessed_excludes_processed _ _ _ _
      (mem_applyOps_mono ops _ ch id (mem_mark_self s ch id))

/-- Witness for C3 at concrete inputs. -/
theorem processed_monotone_and_excluded_witness :
    isPostProcessed
      (applyOps (markPostProcessed (defaultState ("t0")) ("c2") ("p9"))
        [MonitorOp.save ("t1")]) ("c2") ("p9") = true ∧
    isPostProcessed
      (applyOps
        (markPostProcessed (markPostProcessed (defaultState ("t0")) ("c2") ("p9"))
          ("c1") ("p1"))
        [MonitorOp.save ("t1")]) ("c1") ("p1") = true ∧
    ((unprocessedPosts
        (applyOps
          (markPostProcessed (markPostProcessed (defaultState ("t0")) ("c2") ("p9"))
            ("c1") ("p1"))
          [MonitorOp.save ("t1")]) ("c1")
        [Post.mk ("p1") ("u") ("m") 0, Post.mk ("p3") ("u") ("m") 0]).map
      Post.id).contains ("p1") = false := by
  have h := processed_monotone_and_excluded
    (markPostProcessed (defaultState ("t0")) ("c2") ("p9")) ("c1") ("p1")
    ("c2") ("p9") [MonitorOp.save ("t1")]
    [Post.mk ("p1") ("u") ("m") 0, Post.mk ("p3") ("u") ("m") 0]
  exact ⟨h.1 (by decide), h.2.1, h.2.2⟩

/-- C4: when the in-flight flag is set, both a scheduled tick and `runNow`
return immediately: the callback runs zero times, the scheduler state
(including the world the callback would act on) is unchanged, and nothing is
queued. -/
theorem inflight_skip_no_work :
    ∀ (σ ε : Type) (cb : σ → σ × Option ε) (s : SchedulerState σ),
    s.isRunning = true →
    schedRunNow cb s = (Except.ok s, 0) ∧ schedTick cb s = (Except.ok s, 0) := by
  intro σ ε cb s h
  constructor <;> simp [schedRunNow, schedTick, h]

/-- Witness for C4 at a concrete in-flight state and callback. -/
theorem inflight_skip_no_work_witness :
    schedRunNow (fun n => (n + 1, (none : Option String)))
        (SchedulerState.mk true true (0 : Nat)) =
      (Except.ok (SchedulerState.mk true true 0), 0) ∧
    schedTick (fun n => (n + 1, (none : Option String)))
        (SchedulerState.mk true true (0 : Nat)) =
      (Except.ok (SchedulerState.mk true true 0), 0) :=
  inflight_skip_no_work Nat String (fun n => (n + 1, none))
    (SchedulerState.mk true true 0) rfl

/-- C5: no exception escapes the tick handler or `runNow` (the boundary
always completes with `Except.ok`, whatever the callback throws), and
whenever an invocation actually acquires the in-flight flag it is cleared on
exit, on the normal and on the throwing path alike. -/
theorem scheduler_boundary_no_escape :
    ∀ (σ ε : Type) (cb : σ → σ × Option ε) (s : SchedulerState σ),
    exceptOk (schedTick cb s).1 = true ∧ exceptOk (schedRunNow cb s).1 = true ∧
    (s.isRunning = false →
      exitFlag (schedTick cb s).1 = false ∧ exitFlag (schedRunNow cb s).1 = false) := by
  intro σ ε cb s
  cases hr : s.isRunning <;>
    simp [schedTick, schedRunNow, exceptOk, exitFlag, hr]

/-- Witness for C5 with a callback that throws. -/
theorem scheduler_boundary_no_escape_witness :
    exceptOk (schedTick (fun n => (n + 1, some ("boom")))
      (SchedulerState.mk true false (0 : Nat))).1 = true ∧
    exceptOk (schedRunNow (fun n => (n + 1, some ("boom")))
      (SchedulerState.mk true false (0 : Nat))).1 = true ∧
    exitFlag (schedTick (fun n => (n + 1, some ("boom")))
      (SchedulerState.mk true false (0 : Nat))).1 = false ∧
    exitFlag (schedRunNow (fun n => (n + 1, some ("boom")))
      (SchedulerState.mk true false (0 : Nat))).1 = false := by
  have h := scheduler_boundary_no_escape Nat String (fun n => (n + 1, some ("boom")))
    (SchedulerState.mk true false 0)
  exact ⟨h.1, h.2.1, (h.2.2 rfl).1, (h.2.2 rfl).2⟩

/-- C7: `loadState` returns the default state (empty processed map,
`lastRun = now`) when the backing record is absent or fails to parse, and
`isPostProcessed` / `markPostProcessed` operate normally on the defaulted
state. -/
theorem load_defaults_and_operations :
    ∀ (now : String) (parse : String → Option MonitorState) (data ch id : String),
    loadState now none parse = defaultState now ∧
    (parse data = none → loadState now (some data) parse = defaultState now) ∧
    isPostProcessed (defaultState now) ch id = false ∧
    isPostProcessed (markPostProcessed (defaultState now) ch id) ch id = true := by
  intro now parse data ch id
  refine ⟨rfl, ?_, rfl, ?_⟩
  · intro h
    simp [loadState, h]
  · exact (isPostProcessed_true_iff _ _ _).mpr (mem_mark_self _ _ _)

/-- Witness for C7 with an unparsable backing record. -/
theorem load_defaults_and_operations_witness :
    loadState ("2024-01-01") none (fun _ => none) = defaultState ("2024-01-01") ∧
    loadState ("2024-01-01") (some ("corrupt##")) (fun _ => none) =
      defaultState ("2024-01-01") ∧
    isPostProcessed (defaultState ("2024-01-01")) ("town-square") ("postid1") = false ∧
    isPostProcessed
      (markPostProcessed (defaultState ("2024-01-01")) ("town-square") ("postid1"))
      ("town-square") ("postid1") = true := by
  have h := load_defaults_and_operations ("2024-01-01") (fun _ => none)
    ("corrupt##") ("town-square") ("postid1")
  exact ⟨h.1, h.2.1 rfl, h.2.2.1, h.2.2.2⟩

/-- C9: `markPostProcessed` is idempotent — marking the same
`(channelId, postId)` twice, or any positive number of times, leaves exactly
the state of marking it once, and (being a total function) raises no error. -/
theorem markPostProcessed_idempotent :
    ∀ (s : MonitorState) (ch id : String) (n : Nat),
    markPostProcessed (markPostProcessed s ch id) ch id = markPostProcessed s ch id ∧
    Nat.iterate (fun t => markPostProcessed t ch id) (n + 1) s =
      markPostProcessed s ch id := by
  intro s ch id n
  have key : ∀ (k : Nat) (t : MonitorState),
      Nat.iterate (fun u => markPostProcessed u ch id) (k + 1) t =
        markPostProcessed t ch id := by
    intro k
    induction k with
    | zero => intro t; rfl
    | succ m ih =>
      intro t
      rw [Function.iterate_succ_apply, ih]
      exact markPostProcessed_mark_of_mem _ _ _ (mem_mark_self t ch id)
  exact ⟨markPostProcessed_mark_of_mem _ _ _ (mem_mark_self s ch id), key n s⟩

/-- C10: with a monitor instance set, `handleRunMonitoring` always returns
the fixed success result — for any callback (even one that throws inside,
`runNow` swallows it) and any scheduler state (even in-flight, where the
cycle is skipped) — and its error branch is taken exactly when no instance
is set. -/
theorem run_monitoring_tool_result :
    ∀ (σ ε : Type) (errMsg : ε → String) (cb : σ → σ × Option ε)
      (s : SchedulerState σ),
    handleRunMonitoring errMsg cb (some s) =
      ToolResult.mk ("Monitoring process completed successfully") false ∧
    (handleRunMonitoring errMsg cb (none : Option (SchedulerState σ))).isError = true := by
  intro σ ε errMsg cb s
  constructor
  · unfold handleRunMonitoring
    cases hr : s.isRunning <;> simp [schedRunNow, hr]
  · rfl

set_option maxRecDepth 4000 in
/-- C8 counterexample: with 7 matching posts the composed alert does not
contain the claimed suffix `...and 2 more`; the suffix the code appends is
`... and 2 more` (a space after the ellipsis). -/
theorem notification_suffix_counterexample :
    c8posts.length = 7 ∧
    jsIncludes
      (composeNotification ("admin") ("general") ["table tennis"]
        (fun t => toString t) (fun p => p.user_id) c8posts)
      ("...and 2 more") = false ∧
    jsIncludes
      (composeNotification ("admin") ("general") ["table tennis"]
        (fun t => toString t) (fun p => p.user_id) c8posts)
      ("... and 2 more") = true := by
  decide

/-- C8 amended: with more than 5 matching posts the composed alert lists
exactly the first 5 in fetched order and appends the suffix
`... and N more` (ellipsis, space, `and`) with `N` the match count minus 5;
with 5 or fewer, all matches are listed and no suffix is appended. -/
theorem notification_truncation :
    ∀ (u cn : String) (tops : List String) (rts : Int → String)
      (af : Post → String) (posts : List Post),
    (5 < posts.length →
      composeNotification u cn tops rts af posts =
        notificationListing u cn tops rts af (posts.take 5) posts.length ++
          ("... and " ++ toString (posts.length - 5) ++ " more\n")) ∧
    (posts.length ≤ 5 →
      composeNotification u cn tops rts af posts =
        notificationListing u cn tops rts af posts posts.length) := by
  intro u cn tops rts af posts
  constructor
  · intro h
    unfold composeNotification
    rw [if_pos h]
  · intro h
    unfold composeNotification
    rw [if_neg (by omega), List.take_of_length_le (by omega)]
    simp

/-- Witness for C8 (amended) at the 7-post example. -/
theorem notification_truncation_witness :
    composeNotification ("admin") ("general") ["table tennis"]
        (fun t => toString t) (fun p => p.user_id) c8posts =
      notificationListing ("admin") ("general") ["table tennis"]
        (fun t => toString t) (fun p => p.user_id) (c8posts.take 5) c8posts.length ++
        ("... and " ++ toString (c8posts.length - 5) ++ " more\n") := by
  have h := notification_truncation ("admin") ("general") ["table tennis"]
    (fun t => toString t) (fun p => p.user_id) c8posts
  exact h.1 (by decide)

/-! ### Lemmas on the tolerant-extraction topic map -/

theorem appendEntry_key_mem (m : List (String × List String)) (k v t : String) :
    t ∈ keysOf (appendEntry m k v) ↔ t ∈ keysOf m ∨ t = k := by
  induction m with
  | nil => simp [appendEntry, keysOf]
  | cons e rest ih =>
    by_cases h : e.1 = k
    · simp only [appendEntry, if_pos h, keysOf, List.map_cons, List.mem_cons] at *
      rw [h]
      tauto
    · simp only [appendEntry, if_neg h, keysOf, List.map_cons, List.mem_cons] at *
      rw [ih]
      tauto

theorem appendEntry_vals (m : List (String × List String)) (k v x : String) :
    valsContain (appendEntry m k v) x ↔ valsContain m x ∨ x = v := by
  induction m with
  | nil => simp [appendEntry, valsContain]
  | cons e rest ih =>
    by_cases h : e.1 = k
    · simp only [appendEntry, if_pos h, valsContain, List.mem_append, List.mem_singleton]
      tauto
    · simp only [appendEntry, if_neg h, valsContain]
      rw [ih]
      tauto

theorem appendEntry_nonempty (m : List (String × List String)) (k v : String)
    (h : ∀ e ∈ m, 0 < e.2.length) :
    ∀ e ∈ appendEntry m k v, 0 < e.2.length := by
  induction m with
  | nil =>
    intro e he
    simp only [appendEntry, List.mem_singleton] at he
    subst he
    simp
  | cons f rest ih =>
    intro e he
    by_cases hf : f.1 = k
    · simp only [appendEntry, if_pos hf, List.mem_cons] at he
      rcases he with he | he
      · subst he; simp
      · exact h e (List.mem_cons_of_mem _ he)
    · simp only [appendEntry, if_neg hf, List.mem_cons] at he
      rcases he with he | he
      · subst he; exact h e (List.mem_cons_self e rest)
      · exact ih (fun e' he' => h e' (List.mem_cons_of_mem _ he')) e he

theorem foldAppend_keys (v : String) :
    ∀ (ts : List String) (m : List (String × List String)) (t : String),
    t ∈ keysOf (ts.foldl (fun a tp => appendEntry a tp v) m) ↔
      t ∈ keysOf m ∨ t ∈ ts := by
  intro ts
  induction ts with
  | nil => intro m t; simp
  | cons tp rest ih =>
    intro m t
    rw [List.foldl_cons, ih, appendEntry_key_mem]
    simp only [List.mem_cons]
    tauto

theorem foldAppend_vals (v : String) :
    ∀ (ts : List String) (m : List (String × List String)) (x : String),
    valsContain (ts.foldl (fun a tp => appendEntry a tp v) m) x ↔
      valsContain m x ∨ (x = v ∧ ts ≠ []) := by
  intro ts
  induction ts with
  | nil => intro m x; simp
  | cons tp rest ih =>
    intro m x
    rw [List.foldl_cons, ih, appendEntry_vals]
    have hne : tp :: rest ≠ [] := List.cons_ne_nil tp rest
    constructor
    · rintro ((hm | hv) | ⟨hv, _⟩)
      · exact Or.inl hm
      · exact Or.inr ⟨hv, hne⟩
      · exact Or.inr ⟨hv, hne⟩
    · rintro (hm | ⟨hv, _⟩)
      · exact Or.inl (Or.inl hm)
      · exact Or.inl (Or.inr hv)

theorem foldAppend_nonempty (v : String) :
    ∀ (ts : List String) (m : List (String × List String)),
    (∀ e ∈ m, 0 < e.2.length) →
    ∀ e ∈ ts.foldl (fun a tp => appendEntry a tp v) m, 0 < e.2.length := by
  intro ts
  induction ts with
  | nil => intro m h; exact h
  | cons tp rest ih =>
    intro m h
    rw [List.foldl_cons]
    exact ih _ (appendEntry_nonempty m tp v h)

theorem pfold_keys (topics allPostIds : List String) :
    ∀ (ps : List Post) (acc : List (String × List String)) (t : String),
    t ∈ keysOf (ps.foldl
        (fun acc2 post =>
          if allPostIds.contains post.id then
            topics.foldl (fun a tp => appendEntry a tp post.id) acc2
          else acc2) acc) ↔
      t ∈ keysOf acc ∨
        (t ∈ topics ∧ ∃ p ∈ ps, allPostIds.contains p.id = true) := by
  intro ps
  induction ps with
  | nil => intro acc t; simp
  | cons p rest ih =>
    intro acc t
    rw [List.foldl_cons]
    cases hc : allPostIds.contains p.id with
    | true =>
      rw [if_pos (rfl : true = true), ih, foldAppend_keys]
      simp only [List.mem_cons]
      constructor
      · rintro ((ha | ht) | ⟨ht, q, hq, hqc⟩)
        · exact Or.inl ha
        · exact Or.inr ⟨ht, p, Or.inl rfl, hc⟩
        · exact Or.inr ⟨ht, q, Or.inr hq, hqc⟩
      · rintro (ha | ⟨ht, q, _, _⟩)
        · exact Or.inl (Or.inl ha)
        · exact Or.inl (Or.inr ht)
    | false =>
      rw [if_neg Bool.false_ne_true, ih]
      simp only [List.mem_cons]
      constructor
      · rintro (ha | ⟨ht, q, hq, hqc⟩)
        · exact Or.inl ha
        · exact Or.inr ⟨ht, q, Or.inr hq, hqc⟩
      · rintro (ha | ⟨ht, q, hq | hq, hqc⟩)
        · exact Or.inl ha
        · rw [hq] at hqc; rw [hqc] at hc; cases hc
        · exact Or.inr ⟨ht, q, hq, hqc⟩

theorem pfold_vals (topics allPostIds : List String) :
    ∀ (ps : List Post) (acc : List (String × List String)) (x : String),
    valsContain (ps.foldl
        (fun acc2 post =>
          if allPostIds.contains post.id then
            topics.foldl (fun a tp => appendEntry a tp post.id) acc2
          else acc2) acc) x ↔
      valsContain acc x ∨
        (topics ≠ [] ∧ ∃ p ∈ ps, allPostIds.contains p.id = true ∧ x = p.id) := by
  intro ps
  induction ps with
  | nil => intro acc x; simp
  | cons p rest ih =>
    intro acc x
    rw [List.foldl_cons]
    cases hc : allPostIds.contains p.id with
    | true =>
      rw [if_pos (rfl : true = true), ih, foldAppend_vals]
      simp only [List.mem_cons]
      constructor
      · rintro ((ha | ⟨hx, htop⟩) | ⟨htop, q, hq, hqc, hqx⟩)
        · exact Or.inl ha
        · exact Or.inr ⟨htop, p, Or.inl rfl, hc, hx⟩
        · exact Or.inr ⟨htop, q, Or.inr hq, hqc, hqx⟩
      · rintro (ha | ⟨htop, q, hq | hq, hqc, hqx⟩)
        · exact Or.inl (Or.inl ha)
        · subst hq; exact Or.inl (Or.inr ⟨hqx, htop⟩)
        · exact Or.inr ⟨htop, q, hq, hqc, hqx⟩
    | false =>
      rw [if_neg Bool.false_ne_true, ih]
      simp only [List.mem_cons]
      constructor
      · rintro (ha | ⟨htop, q, hq, hqc, hqx⟩)
        · exact Or.inl ha
        · exact Or.inr ⟨htop, q, Or.inr hq, hqc, hqx⟩
      · rintro (ha | ⟨htop, q, hq | hq, hqc, hqx⟩)
        · exact Or.inl ha
        · rw [hq] at hqc; rw [hqc] at hc; cases hc
        · exact Or.inr ⟨htop, q, hq, hqc, hqx⟩

theorem pfold_nonempty (topics allPostIds : List String) :
    ∀ (ps : List Post) (acc : List (String × List String)),
    (∀ e ∈ acc, 0 < e.2.length) →
    ∀ e ∈ ps.foldl
        (fun acc2 post =>
          if allPostIds.contains post.id then
            topics.foldl (fun a tp => appendEntry a tp post.id) acc2
          else acc2) acc, 0 < e.2.length := by
  intro ps
  induction ps with
  | nil => intro acc h; exact h
  | cons p rest ih =>
    intro acc h
    rw [List.foldl_cons]
    cases hc : allPostIds.contains p.id with
    | true =>
      rw [if_pos (rfl : true = true)]
      exact ih _ (foldAppend_nonempty p.id topics acc h)
    | false =>
      rw [if_neg Bool.false_ne_true]
      exact ih _ h

theorem concatVals_mem :
    ∀ (m : List (String × List String)) (ini : List String) (x : String),
    x ∈ m.foldl (fun acc e => acc ++ e.2) ini ↔ x ∈ ini ∨ valsContain m x := by
  intro m
  induction m with
  | nil => intro ini x; simp [valsContain]
  | cons e rest ih =>
    intro ini x
    rw [List.foldl_cons, ih]
    simp only [List.mem_append, valsContain]
    tauto

/-- C6 counterexample: a backend response whose tolerant scan finds one
well-formed message id (`strayId`) but associates no id to any topic, while
that id belongs to no candidate post, yields an empty matched-topic set, not
the full topic list `["alpha"]`. -/
theorem allTopics_tiebreak_counterexample :
    0 < ([strayId] : List String).length ∧
    stage2Topics ["alpha"] (fun _ => []) = [] ∧
    (analyzeManualExtraction [cPost] ["alpha"] [strayId] (fun _ => [])).2 = [] ∧
    (([] : List String) ≠ ["alpha"]) := by
  refine ⟨by decide, rfl, by decide, by decide⟩

/-- C6 amended: when the tolerant scan associates no id with any specific
topic, the topic list is nonempty, and at least one found id belongs to a
candidate message, every found candidate id is treated as relevant to every
configured topic: the matched-topic set equals the configured topic set and
the matching-message set is exactly the candidate messages whose ids were
found.  (Without a found candidate id, or with an empty topic list, both
sets are empty instead.) -/
theorem allTopics_tiebreak_amended :
    ∀ (posts : List Post) (topics allPostIds : List String)
      (topicScan : String → List String),
    stage2Topics topics topicScan = [] →
    topics ≠ [] →
    (∃ p ∈ posts, allPostIds.contains p.id = true) →
    (∀ t, t ∈ (analyzeManualExtraction posts topics allPostIds topicScan).2 ↔
      t ∈ topics) ∧
    (analyzeManualExtraction posts topics allPostIds topicScan).1 =
      posts.filter (fun p => allPostIds.contains p.id) := by
  intro posts topics allPostIds topicScan hs2 htop hfound
  obtain ⟨p0, hp0, hc0⟩ := hfound
  have hmem0 : p0.id ∈ allPostIds := by
    rw [contains_eq_decide_mem] at hc0
    exact of_decide_eq_true hc0
  have hlen : 0 < allPostIds.length := List.length_pos.mpr (List.ne_nil_of_mem hmem0)
  have hbranch : manualExtractTopics posts topics allPostIds topicScan =
      allTopicsFallback posts topics allPostIds := by
    simp only [manualExtractTopics]
    rw [hs2]
    simp [hlen]
  have hF_ne : ∀ e ∈ allTopicsFallback posts topics allPostIds, 0 < e.2.length := by
    intro e he
    exact pfold_nonempty topics allPostIds posts []
      (fun e' he' => absurd he' (List.not_mem_nil e')) e he
  have hkept : (allTopicsFallback posts topics allPostIds).filter
      (fun e => decide (0 < e.2.length)) = allTopicsFallback posts topics allPostIds :=
    List.filter_eq_self.mpr (fun e he => decide_eq_true (hF_ne e he))
  constructor
  · intro t
    have h2 : (analyzeManualExtraction posts topics allPostIds topicScan).2 =
        keysOf (allTopicsFallback posts topics allPostIds) := by
      simp only [analyzeManualExtraction, llmRelevant, hbranch, hkept]
      rfl
    rw [h2]
    have hk : t ∈ keysOf (allTopicsFallback posts topics allPostIds) ↔
        t ∈ keysOf ([] : List (String × List String)) ∨
          (t ∈ topics ∧ ∃ p ∈ posts, allPostIds.contains p.id = true) :=
      pfold_keys topics allPostIds posts [] t
    rw [hk]
    simp only [keysOf, List.map_nil, List.not_mem_nil, false_or]
    constructor
    · rintro ⟨ht, _⟩
      exact ht
    · intro ht
      exact ⟨ht, p0, hp0, hc0⟩
  · have h1 : (analyzeManualExtraction posts topics allPostIds topicScan).1 =
        posts.filter (fun p =>
          ((allTopicsFallback posts topics allPostIds).foldl
            (fun acc e => acc ++ e.2) []).contains p.id) := by
      simp only [analyzeManualExtraction, llmRelevant, hbranch, hkept]
    rw [h1]
    apply List.filter_congr
    intro p hp
    rw [contains_eq_decide_mem, contains_eq_decide_mem]
    apply decide_eq_decide.mpr
    have hv := concatVals_mem (allTopicsFallback posts topics allPostIds) [] p.id
    have hvals : valsContain (allTopicsFallback posts topics allPostIds) p.id ↔
        valsContain ([] : List (String × List String)) p.id ∨
          (topics ≠ [] ∧ ∃ q ∈ posts, allPostIds.contains q.id = true ∧ p.id = q.id) :=
      pfold_vals topics allPostIds posts [] p.id
    rw [hv, hvals]
    simp only [valsContain, List.not_mem_nil, false_or]
    constructor
    · rintro ⟨_, q, _, hqc, hqx⟩
      rw [hqx]
      rw [contains_eq_decide_mem] at hqc
      exact of_decide_eq_true hqc
    · intro hmem
      exact ⟨htop, p, hp, by rw [contains_eq_decide_mem]; exact decide_eq_true hmem, rfl⟩

/-- Witness for C6 (amended) at a concrete scan outcome. -/
theorem allTopics_tiebreak_amended_witness :
    ("alpha" ∈ (analyzeManualExtraction [cPost] ["alpha"] [cPost.id] (fun _ => [])).2 ↔
      "alpha" ∈ (["alpha"] : List String)) ∧
    (analyzeManualExtraction [cPost] ["alpha"] [cPost.id] (fun _ => [])).1 =
      [cPost].filter (fun p => ([cPost.id] : List String).contains p.id) := by
  have h := allTopics_tiebreak_amended [cPost] ["alpha"] [cPost.id] (fun _ => [])
    rfl (by decide) ⟨cPost, by decide, by decide⟩
  exact ⟨h.1 ("alpha"), h.2⟩
